import Mathlib

/-!
Verification of the rate-limited scheduler / job-cache core of the
Google_ADS repository against its specification.

The relevant JavaScript lives in `src/utils/rateLimiter.js` (the
`RateLimiter` class) and `src/services/reportDataService.js` (quota
windows, retrying SalesDrive client, report-job cache).  Each JS
function is translated into an executable Lean definition; mutable
state becomes explicit state passing, `Date.now()` becomes an explicit
`now : Int` argument (epoch milliseconds), and promise
resolution/rejection becomes `Except`.
-/

namespace GoogleAds

/-! ## QuotaTracker (src/services/reportDataService.js, lines 114-235)

Fixed hourly and daily windows.  The module-level limits read
`process.env` with defaults 200 / 2000; the environment overrides are
modelled as absent, so the defaults apply. -/

def SALES_DRIVE_HOURLY_WINDOW_MS : Int := 60 * 60 * 1000

def SALES_DRIVE_HOURLY_LIMIT : Int := 200

def SALES_DRIVE_DAILY_WINDOW_MS : Int := 24 * 60 * 60 * 1000

def SALES_DRIVE_DAILY_LIMIT : Int := 2000

/-- JS `alignToHour` builds a `Date` and zeroes minutes/seconds/ms in local
time.  The local timezone is modelled with an offset of zero, i.e. the
timestamp is floored to the enclosing hour boundary (`Int./` is floor
division for a positive divisor, matching `setMinutes(0,0,0)` also for
negative epoch values). -/
def alignToHour (timestamp : Int) : Int :=
  SALES_DRIVE_HOURLY_WINDOW_MS * (timestamp / SALES_DRIVE_HOURLY_WINDOW_MS)

/-- JS `alignToDay`: zeroes hours/minutes/seconds/ms, i.e. floors to the
enclosing day boundary (timezone offset modelled as zero). -/
def alignToDay (timestamp : Int) : Int :=
  SALES_DRIVE_DAILY_WINDOW_MS * (timestamp / SALES_DRIVE_DAILY_WINDOW_MS)

/-- The mutable `{ startedAt, count }` window objects
(`salesDriveHourlyWindow`, `salesDriveDailyWindow`). -/
structure QuotaWindow where
  startedAt : Int
  count : Int
deriving DecidableEq, Repr

/-- Return value of `getHourlyStats` / `getDailyStats`. -/
structure QuotaStats where
  limit : Int
  used : Int
  remaining : Int
  resetAt : Int
  resetInMs : Int
deriving DecidableEq, Repr

/-- JS `resetHourlyWindowIfNeeded(now)`. -/
def resetHourlyWindowIfNeeded (now : Int) (w : QuotaWindow) : QuotaWindow :=
  let currentHourStart := alignToHour now
  if currentHourStart ≠ w.startedAt then { startedAt := currentHourStart, count := 0 } else w

/-- JS `getHourlyStats(now)`: resets the window if the hour changed, then
reports clamped usage.  The mutation of `salesDriveHourlyWindow` is made
explicit by returning the updated window. -/
def getHourlyStats (now : Int) (w : QuotaWindow) : QuotaWindow × QuotaStats :=
  let w := resetHourlyWindowIfNeeded now w
  let limit := SALES_DRIVE_HOURLY_LIMIT
  let used := max 0 (min w.count limit)
  let remaining := max (limit - used) 0
  let resetAt := w.startedAt + SALES_DRIVE_HOURLY_WINDOW_MS
  let resetInMs := max (resetAt - now) 0
  (w, { limit := limit, used := used, remaining := remaining,
        resetAt := resetAt, resetInMs := resetInMs })

/-- JS `noteHourlyRequest()`: reset if needed, increment, then read stats. -/
def noteHourlyRequest (now : Int) (w : QuotaWindow) : QuotaWindow × QuotaStats :=
  let w := resetHourlyWindowIfNeeded now w
  let w := { w with count := w.count + 1 }
  getHourlyStats now w

/-- JS `resetDailyWindowIfNeeded(now)`. -/
def resetDailyWindowIfNeeded (now : Int) (w : QuotaWindow) : QuotaWindow :=
  let currentDayStart := alignToDay now
  if currentDayStart ≠ w.startedAt then { startedAt := currentDayStart, count := 0 } else w

/-- JS `getDailyStats(now)`. -/
def getDailyStats (now : Int) (w : QuotaWindow) : QuotaWindow × QuotaStats :=
  let w := resetDailyWindowIfNeeded now w
  let limit := SALES_DRIVE_DAILY_LIMIT
  let used := max 0 (min w.count limit)
  let remaining := max (limit - used) 0
  let resetAt := w.startedAt + SALES_DRIVE_DAILY_WINDOW_MS
  let resetInMs := max (resetAt - now) 0
  (w, { limit := limit, used := used, remaining := remaining,
        resetAt := resetAt, resetInMs := resetInMs })

/-- JS `noteDailyRequest()`. -/
def noteDailyRequest (now : Int) (w : QuotaWindow) : QuotaWindow × QuotaStats :=
  let w := resetDailyWindowIfNeeded now w
  let w := { w with count := w.count + 1 }
  getDailyStats now w

/-- C7.  Quota window reset and clamping: `getHourlyStats` / `getDailyStats`
(and the `noteRequest` counterparts) first reset the stored window to the
aligned start of `now` with count 0 whenever the aligned start of `now`
differs from the stored `startedAt`; `used` is clamped to `[0, limit]` and
`remaining = max (limit - used) 0`; hence a call whose time has crossed the
hour/day boundary reports `used = 0` and `remaining = limit`. -/
theorem quota_window_reset_and_clamping (now : Int) (w : QuotaWindow) :
    (alignToHour now ≠ w.startedAt →
      (getHourlyStats now w).1 = { startedAt := alignToHour now, count := 0 } ∧
      (getHourlyStats now w).2.used = 0 ∧
      (getHourlyStats now w).2.remaining = SALES_DRIVE_HOURLY_LIMIT ∧
      (noteHourlyRequest now w).1.startedAt = alignToHour now) ∧
    (alignToDay now ≠ w.startedAt →
      (getDailyStats now w).1 = { startedAt := alignToDay now, count := 0 } ∧
      (getDailyStats now w).2.used = 0 ∧
      (getDailyStats now w).2.remaining = SALES_DRIVE_DAILY_LIMIT ∧
      (noteDailyRequest now w).1.startedAt = alignToDay now) ∧
    (0 ≤ (getHourlyStats now w).2.used ∧
      (getHourlyStats now w).2.used ≤ SALES_DRIVE_HOURLY_LIMIT ∧
      (getHourlyStats now w).2.remaining =
        max (SALES_DRIVE_HOURLY_LIMIT - (getHourlyStats now w).2.used) 0) ∧
    (0 ≤ (getDailyStats now w).2.used ∧
      (getDailyStats now w).2.used ≤ SALES_DRIVE_DAILY_LIMIT ∧
      (getDailyStats now w).2.remaining =
        max (SALES_DRIVE_DAILY_LIMIT - (getDailyStats now w).2.used) 0) := by
  refine ⟨fun h => ?_, fun h => ?_, ⟨?_, ?_, ?_⟩, ⟨?_, ?_, ?_⟩⟩
  · simp [getHourlyStats, noteHourlyRequest, resetHourlyWindowIfNeeded, h,
      SALES_DRIVE_HOURLY_LIMIT]
  · simp [getDailyStats, noteDailyRequest, resetDailyWindowIfNeeded, h,
      SALES_DRIVE_DAILY_LIMIT]
  · simp [getHourlyStats]
  · simp only [getHourlyStats, SALES_DRIVE_HOURLY_LIMIT]
    omega
  · simp [getHourlyStats]
  · simp [getDailyStats]
  · simp only [getDailyStats, SALES_DRIVE_DAILY_LIMIT]
    omega
  · simp [getDailyStats]

/-- Witness for C7: the stored hourly window began at epoch hour 0 with 5
requests; a call one hour later (now = 3600000 ms) crosses the boundary and
reports zero usage; similarly for the daily window. -/
theorem quota_window_reset_and_clamping_witness :
    (getHourlyStats 3600000 { startedAt := 0, count := 5 }).2.used = 0 ∧
    (getDailyStats 86400000 { startedAt := 0, count := 7 }).2.remaining =
      SALES_DRIVE_DAILY_LIMIT := by
  constructor
  · exact ((quota_window_reset_and_clamping 3600000
      { startedAt := 0, count := 5 }).1 (by decide)).2.1
  · exact (((quota_window_reset_and_clamping 86400000
      { startedAt := 0, count := 7 }).2.1 (by decide))).2.2.1

/-! ## Report-job cache key (src/services/reportDataService.js, lines 272-298) -/

/-- Parameter object accepted by `buildReportJobKey`.  A source id is
`null`-able (`id != null ? id.toString() : ''`), so it is modelled as
`Option String`, already in its `toString` form.  `salesDriveFilter` and
`planOverrides` are arbitrary JS objects; a non-object value (normalized to
`\x7b\x7d` by the code) is modelled as `none`. -/
structure ReportJobParams where
  startDate : String
  endDate : String
  selectedSourceIds : List (Option String)
  salesDriveFilter : Option (List (String × String))
  salesDriveLimit : Option Int
  planOverrides : Option (List (String × Int))
  reportType : String
deriving DecidableEq, Repr

/-- The object passed to `JSON.stringify` in `buildReportJobKey`, field for
field.  `JSON.stringify` on this fixed shape is a function of the record, so
two equal records serialize to the same key string. -/
structure ReportJobKey where
  startDate : String
  endDate : String
  sources : List String
  filter : List (String × String)
  limit : Option Int
  plan : List (String × Int)
  reportType : String
deriving DecidableEq, Repr

/-- JS `buildReportJobKey`: stringifies each source id (`null` becomes the
empty string), sorts the ids (`Array.prototype.sort` compares UTF-16 code
units; modelled by `String` lexicographic order), normalizes non-object
filter/plan to the empty object, and serializes.  `salesDriveLimit ?? null`
keeps `none` as `none`. -/
def buildReportJobKey (p : ReportJobParams) : ReportJobKey :=
  let normalizedSources :=
    (p.selectedSourceIds.map (fun id => id.getD "")).insertionSort (· ≤ ·)
  let normalizedFilter := p.salesDriveFilter.getD []
  let normalizedPlan := p.planOverrides.getD []
  { startDate := p.startDate
    endDate := p.endDate
    sources := normalizedSources
    filter := normalizedFilter
    limit := p.salesDriveLimit
    plan := normalizedPlan
    reportType := p.reportType }

/-- C8.  Cache-key normalization: `buildReportJobKey` is deterministic (it is
a function) and order-independent in the source-id list: two parameter
objects equal except for a permutation of `selectedSourceIds` produce the
same key, because the ids are stringified and sorted before serialization. -/
theorem buildReportJobKey_order_independent (p q : ReportJobParams)
    (hperm : p.selectedSourceIds.Perm q.selectedSourceIds)
    (h1 : p.startDate = q.startDate) (h2 : p.endDate = q.endDate)
    (h3 : p.salesDriveFilter = q.salesDriveFilter)
    (h4 : p.salesDriveLimit = q.salesDriveLimit)
    (h5 : p.planOverrides = q.planOverrides)
    (h6 : p.reportType = q.reportType) :
    buildReportJobKey p = buildReportJobKey q := by
  have hsort :
      (p.selectedSourceIds.map (fun id => id.getD "")).insertionSort (· ≤ ·) =
      (q.selectedSourceIds.map (fun id => id.getD "")).insertionSort (· ≤ ·) := by
    apply List.eq_of_perm_of_sorted
      (r := fun a b : String => a ≤ b)
    · exact ((List.perm_insertionSort _ _).trans (hperm.map _)).trans
        (List.perm_insertionSort _ _).symm
    · exact List.sorted_insertionSort _ _
    · exact List.sorted_insertionSort _ _
  simp only [buildReportJobKey]
  rw [h1, h2, h3, h4, h5, h6, hsort]

/-- Witness for C8, the spec's scenario: sources `["3","1"]` and `["1","3"]`
over the same January 2025 range produce the same key. -/
theorem buildReportJobKey_order_independent_witness :
    buildReportJobKey
      { startDate := "2025-01-01", endDate := "2025-01-31",
        selectedSourceIds := [some "3", some "1"], salesDriveFilter := some [],
        salesDriveLimit := none, planOverrides := some [],
        reportType := "summary" } =
    buildReportJobKey
      { startDate := "2025-01-01", endDate := "2025-01-31",
        selectedSourceIds := [some "1", some "3"], salesDriveFilter := some [],
        salesDriveLimit := none, planOverrides := some [],
        reportType := "summary" } :=
  buildReportJobKey_order_independent _ _
    (List.Perm.swap (some "1") (some "3") []) rfl rfl rfl rfl rfl rfl

/-! ## Retrying SalesDrive client
(src/services/reportDataService.js, lines 75-92 and 605-751)

`rateLimitedSalesDriveRequest(params, context, attempt)` performs one
scheduled HTTP attempt and, on failure, classifies the error and either
recurses with `attempt + 1` after a backoff wait or rethrows.  The
downstream behaviour is modelled by `outcomes : Nat → Except SDError α`
giving the result of each attempt number; the model returns the final
result together with the number of attempts performed and the list of
backoff delays awaited between attempts. -/

/-- Configuration constants used by the retry loop.  Defaults (env unset):
`SALES_DRIVE_MAX_RETRY_ATTEMPTS = 3`, `SALES_DRIVE_RETRY_BASE_DELAY_MS =
5000`, `SALES_DRIVE_RATE_LIMIT_INTERVAL = 60000`.  `parsePositiveInt`
guarantees `1 ≤ maxAttempts` and positive delays for every real
configuration. -/
structure RetryConfig where
  maxAttempts : Nat
  baseDelayMs : Int
  intervalMs : Int
deriving DecidableEq, Repr

def defaultRetryConfig : RetryConfig :=
  { maxAttempts := 3, baseDelayMs := 5000, intervalMs := 60000 }

/-- A raw `Retry-After` header value, modelled by its parse outcome: a
finite numeric string (seconds, possibly negative), a string that
`Date.parse` accepts (epoch ms), or anything else. -/
inductive RetryAfterValue where
  | num (seconds : Int)
  | httpDate (epochMs : Int)
  | malformed
deriving DecidableEq, Repr

/-- The error thrown by a failed axios request: optional HTTP status
(`error.response?.status`), optional string `error.code` (set for
network/connection errors), optional `retry-after` response header. -/
structure SDError where
  status : Option Int
  code : Option String
  retryAfter : Option RetryAfterValue
deriving DecidableEq, Repr

/-- JS `parseRetryAfter(retryAfterHeader)` at current time `now`: a missing
header yields `null`; a finite non-negative numeric value is seconds,
converted to ms; a negative numeric or non-numeric value falls through to
`Date.parse`, yielding `max(parsedDate - Date.now(), 0)` when it parses
(`Date.parse` of a plain negative number string is NaN) and `null`
otherwise. -/
def parseRetryAfter (now : Int) : Option RetryAfterValue → Option Int
  | none => none
  | some (.num s) => if 0 ≤ s then some (s * 1000) else none
  | some (.httpDate t) => some (max (t - now) 0)
  | some .malformed => none

/-- The retryable-status test on line 695:
`status === 429 || status === 500 || status === 502 || status === 503 ||
status === 504`. -/
def retryableStatus (status : Option Int) : Bool :=
  status == some 429 || status == some 500 || status == some 502 ||
    status == some 503 || status == some 504

/-- The `networkError` test on line 694: `error.code && typeof error.code
=== 'string'` (an empty-string code is falsy in JS). -/
def isNetworkError (e : SDError) : Bool :=
  match e.code with
  | some c => c ≠ ""
  | none => false

/-- JS `rateLimitedSalesDriveRequest` failure handling (lines 686-750),
with the scheduled HTTP attempt abstracted as `outcomes attempt`.  Returns
`(result, attemptsMade, delays)` where `delays` are the waits performed
before re-attempts.  The recursion of the source (`return
rateLimitedSalesDriveRequest(params, context, nextAttempt)`) increments the
attempt counter and is guarded by `attempt < maxAttempts`. -/
def rateLimitedSalesDriveRequest (cfg : RetryConfig)
    (outcomes : Nat → Except SDError α) (now : Int) (attempt : Nat) :
    Except SDError α × Nat × List Int :=
  match outcomes attempt with
  | .ok response => (.ok response, 1, [])
  | .error error =>
    let retryAfterMs := parseRetryAfter now error.retryAfter
    let retryable := retryableStatus error.status
    -- `shouldRetry = attempt < maxAttempts && (retryableStatus || networkError
    --  || retryAfterMs !== null)` (lines 696-697)
    if h : attempt < cfg.maxAttempts ∧
        (retryable || isNetworkError error || retryAfterMs.isSome) = true then
      -- the `shouldRetry` branch (lines 699-723):
      -- `boundedDelay = max(1000, min(retryAfterMs ?? baseDelayMs *
      --  2 ** (attempt - 1), intervalMs))`, wait, recurse with attempt + 1
      let boundedDelay := max 1000
        (min (retryAfterMs.getD (cfg.baseDelayMs * 2 ^ (attempt - 1))) cfg.intervalMs)
      let rest := rateLimitedSalesDriveRequest cfg outcomes now (attempt + 1)
      (rest.1, rest.2.1 + 1, boundedDelay :: rest.2.2)
    else if (retryable || retryAfterMs.isSome) = true then
      -- lines 725-747; the inner `attempt < maxAttempts` retry path is
      -- unreachable (it would have satisfied `shouldRetry`), kept verbatim
      if h2 : attempt < cfg.maxAttempts then
        let rest := rateLimitedSalesDriveRequest cfg outcomes now (attempt + 1)
        (rest.1, rest.2.1 + 1, retryAfterMs.getD cfg.intervalMs :: rest.2.2)
      else (.error error, 1, [])
    else (.error error, 1, [])
  termination_by cfg.maxAttempts - attempt
  decreasing_by
  · omega
  · omega

/-- Helper: every invocation performs at least one attempt. -/
lemma rateLimitedSalesDriveRequest_attempts_pos (cfg : RetryConfig)
    (outcomes : Nat → Except SDError α) (now : Int) (attempt : Nat) :
    1 ≤ (rateLimitedSalesDriveRequest cfg outcomes now attempt).2.1 := by
  rw [rateLimitedSalesDriveRequest]
  split
  · simp
  · dsimp only
    split
    · simp
    · split
      · split
        · simp
        · simp
      · simp

/-- Helper: starting from attempt number `attempt ≤ maxAttempts`, the run
performs at most `maxAttempts - attempt + 1` further attempts, and when it
rejects, the error is the outcome of the last attempt performed. -/
lemma rateLimitedSalesDriveRequest_run_spec (cfg : RetryConfig)
    (outcomes : Nat → Except SDError α) (now : Int) :
    ∀ (n attempt : Nat), cfg.maxAttempts - attempt ≤ n →
    attempt ≤ cfg.maxAttempts →
    (rateLimitedSalesDriveRequest cfg outcomes now attempt).2.1 + attempt ≤
      cfg.maxAttempts + 1 ∧
    (∀ e, (rateLimitedSalesDriveRequest cfg outcomes now attempt).1 = .error e →
      outcomes (attempt + (rateLimitedSalesDriveRequest cfg outcomes now attempt).2.1 - 1)
        = .error e) := by
  intro n
  induction n with
  | zero =>
    intro attempt hn hle
    rw [rateLimitedSalesDriveRequest]
    split
    · refine ⟨by simp; omega, fun e he => by simp at he⟩
    · rename_i err herr
      dsimp only
      split
      · rename_i hcond
        exact absurd hcond.1 (by omega)
      · split
        · split
          · rename_i h2
            exact absurd h2 (by omega)
          · refine ⟨by simp; omega, fun e he => ?_⟩
            simp only [Except.error.injEq] at he
            simp only [he] at herr
            simpa using herr
        · refine ⟨by simp; omega, fun e he => ?_⟩
          simp only [Except.error.injEq] at he
          simp only [he] at herr
          simpa using herr
  | succ n ih =>
    intro attempt hn hle
    rw [rateLimitedSalesDriveRequest]
    split
    · refine ⟨by simp; omega, fun e he => by simp at he⟩
    · rename_i err herr
      dsimp only
      split
      · rename_i hcond
        have hrec := ih (attempt + 1) (by omega) (by omega)
        have hpos := rateLimitedSalesDriveRequest_attempts_pos cfg outcomes now (attempt + 1)
        refine ⟨by simp; omega, fun e he => ?_⟩
        simp only at he ⊢
        have := hrec.2 e he
        simpa [show attempt + ((rateLimitedSalesDriveRequest cfg outcomes now
          (attempt + 1)).2.1 + 1) - 1 = attempt + 1 +
          (rateLimitedSalesDriveRequest cfg outcomes now (attempt + 1)).2.1 - 1
          by omega] using this
      · rename_i hcond
        split
        · rename_i hclass
          split
          · rename_i h2
            exfalso
            apply hcond
            refine ⟨h2, ?_⟩
            revert hclass
            cases retryableStatus err.status <;>
              cases (parseRetryAfter now err.retryAfter).isSome <;>
              cases isNetworkError err <;> simp
          · refine ⟨by simp; omega, fun e he => ?_⟩
            simp only [Except.error.injEq] at he
            simp only [he] at herr
            simpa using herr
        · refine ⟨by simp; omega, fun e he => ?_⟩
          simp only [Except.error.injEq] at he
          simp only [he] at herr
          simpa using herr

/-- C6.  Bounded retries: starting at attempt 1, the recursion performs at
most `maxAttempts` attempts in total (the counter strictly increases and
the code never recurses once `attempt ≥ maxAttempts`), and when every
attempt fails the call rejects with the error of the final attempt
performed. -/
theorem rateLimitedSalesDriveRequest_bounded_retries (cfg : RetryConfig)
    (outcomes : Nat → Except SDError α) (now : Int)
    (hmax : 1 ≤ cfg.maxAttempts) :
    (rateLimitedSalesDriveRequest cfg outcomes now 1).2.1 ≤ cfg.maxAttempts ∧
    (∀ e, (rateLimitedSalesDriveRequest cfg outcomes now 1).1 = .error e →
      outcomes (rateLimitedSalesDriveRequest cfg outcomes now 1).2.1 = .error e) := by
  have h := rateLimitedSalesDriveRequest_run_spec cfg outcomes now
    (cfg.maxAttempts - 1) 1 (by omega) hmax
  have hpos := rateLimitedSalesDriveRequest_attempts_pos cfg outcomes now 1
  refine ⟨by omega, fun e he => ?_⟩
  have := h.2 e he
  simpa [show 1 + (rateLimitedSalesDriveRequest cfg outcomes now 1).2.1 - 1 =
    (rateLimitedSalesDriveRequest cfg outcomes now 1).2.1 by omega] using this

/-- Witness for C6: with the default configuration (3 attempts) and a
downstream that always answers HTTP 500, exactly 3 attempts happen and the
final error surfaces. -/
theorem rateLimitedSalesDriveRequest_bounded_retries_witness :
    (rateLimitedSalesDriveRequest defaultRetryConfig
      (fun _ => (Except.error ⟨some 500, none, none⟩ : Except SDError Unit))
      0 1).2.1 ≤ defaultRetryConfig.maxAttempts :=
  (rateLimitedSalesDriveRequest_bounded_retries defaultRetryConfig _ 0
    (by decide)).1

/-- C3, counterexample.  The claim says an error with HTTP status 400 is
propagated immediately with no retry and no backoff wait "regardless of any
Retry-After header".  But `shouldRetry` (line 696-697) also fires when
`retryAfterMs !== null`: a downstream that always fails with status 400 and
header `Retry-After: 2` is retried twice (3 attempts in total) with two
2000 ms backoff waits before the error finally propagates. -/
theorem retry_classification_counterexample :
    rateLimitedSalesDriveRequest defaultRetryConfig
      (fun _ => (Except.error ⟨some 400, none, some (.num 2)⟩ :
        Except SDError Unit)) 0 1 =
    (Except.error ⟨some 400, none, some (.num 2)⟩, 3, [2000, 2000]) := by
  rw [rateLimitedSalesDriveRequest, rateLimitedSalesDriveRequest,
    rateLimitedSalesDriveRequest]
  norm_num [parseRetryAfter, retryableStatus, isNetworkError, defaultRetryConfig]

/-- C3, amended.  Retry classification: a failed attempt is retried only
when the error is a network/connection error, has HTTP status in
429/500/502/503/504, or carries a parseable `Retry-After` header; an error
outside this class propagates to the caller immediately, with no retry
attempt and no backoff wait.  (The original claim's "regardless of any
Retry-After header" is dropped: a parseable `Retry-After` header makes an
otherwise terminal error retryable.) -/
theorem retry_classification (cfg : RetryConfig)
    (outcomes : Nat → Except SDError α) (now : Int) (attempt : Nat)
    (e : SDError) (hout : outcomes attempt = .error e) :
    ((retryableStatus e.status || isNetworkError e ||
        (parseRetryAfter now e.retryAfter).isSome) = false →
      rateLimitedSalesDriveRequest cfg outcomes now attempt =
        (.error e, 1, [])) ∧
    (attempt < cfg.maxAttempts →
      (retryableStatus e.status || isNetworkError e ||
        (parseRetryAfter now e.retryAfter).isSome) = true →
      2 ≤ (rateLimitedSalesDriveRequest cfg outcomes now attempt).2.1) := by
  constructor
  · intro h
    simp only [Bool.or_eq_false_iff] at h
    rw [rateLimitedSalesDriveRequest, hout]
    dsimp only
    rw [dif_neg (by simp [h.1.1, h.1.2, h.2])]
    rw [if_neg (by simp [h.1.1, h.2])]
  · intro hlt hclass
    have hpos := rateLimitedSalesDriveRequest_attempts_pos cfg outcomes now (attempt + 1)
    rw [rateLimitedSalesDriveRequest, hout]
    dsimp only
    rw [dif_pos ⟨hlt, hclass⟩]
    simpa using hpos

/-- Witness for C3 (amended): a plain HTTP 404 error (no network code, no
Retry-After header) propagates after exactly one attempt; a plain HTTP 429
error at attempt 1 of 3 leads to at least a second attempt. -/
theorem retry_classification_witness :
    (rateLimitedSalesDriveRequest defaultRetryConfig
      (fun _ => (Except.error ⟨some 404, none, none⟩ : Except SDError Unit))
      0 1 = (Except.error ⟨some 404, none, none⟩, 1, [])) ∧
    2 ≤ (rateLimitedSalesDriveRequest defaultRetryConfig
      (fun _ => (Except.error ⟨some 429, none, none⟩ : Except SDError Unit))
      0 1).2.1 :=
  ⟨(retry_classification defaultRetryConfig _ 0 1 _ rfl).1 (by decide),
   (retry_classification defaultRetryConfig _ 0 1 _ rfl).2 (by decide) (by decide)⟩

/-- The backoff delay exactly as the specification words it:
`delay = max(1000, min(serverRetryAfterMs ?? baseDelay * 2 ** (attempt-1),
schedulerIntervalMs))`, the server hint taking precedence when present. -/
def specBackoffDelay (cfg : RetryConfig) (serverRetryAfterMs : Option Int)
    (attempt : Nat) : Int :=
  match serverRetryAfterMs with
  | some server => max 1000 (min server cfg.intervalMs)
  | none => max 1000 (min (cfg.baseDelayMs * 2 ^ (attempt - 1)) cfg.intervalMs)

/-- C5.  Backoff delay formula: whenever attempt `attempt` fails retryably
(so a retry happens), the wait performed before the next attempt is exactly
`specBackoffDelay` — `max(1000, min(serverRetryAfterMs, intervalMs))` when a
parseable `Retry-After` header is present and `max(1000, min(baseDelay *
2^(attempt-1), intervalMs))` otherwise; in particular an attempt failing
with HTTP 429 and header `Retry-After: 2` waits at least 2000 ms. -/
theorem backoff_delay_formula (cfg : RetryConfig)
    (outcomes : Nat → Except SDError α) (now : Int) (attempt : Nat)
    (e : SDError) (hout : outcomes attempt = .error e)
    (hlt : attempt < cfg.maxAttempts)
    (hclass : (retryableStatus e.status || isNetworkError e ||
      (parseRetryAfter now e.retryAfter).isSome) = true) :
    (rateLimitedSalesDriveRequest cfg outcomes now attempt).2.2.head? =
      some (specBackoffDelay cfg (parseRetryAfter now e.retryAfter) attempt) ∧
    (e.retryAfter = some (.num 2) → 2000 ≤ cfg.intervalMs →
      ∀ d, (rateLimitedSalesDriveRequest cfg outcomes now attempt).2.2.head? =
        some d → 2000 ≤ d) := by
  have hmain : (rateLimitedSalesDriveRequest cfg outcomes now attempt).2.2.head? =
      some (specBackoffDelay cfg (parseRetryAfter now e.retryAfter) attempt) := by
    rw [rateLimitedSalesDriveRequest, hout]
    dsimp only
    rw [dif_pos ⟨hlt, hclass⟩]
    cases hra : parseRetryAfter now e.retryAfter with
    | none => simp [specBackoffDelay, hra]
    | some server => simp [specBackoffDelay, hra]
  refine ⟨hmain, fun hra h2000 d hd => ?_⟩
  rw [hmain] at hd
  have hparse : parseRetryAfter now e.retryAfter = some 2000 := by
    rw [hra]
    simp [parseRetryAfter]
  rw [hparse] at hd
  simp only [specBackoffDelay, Option.some.injEq] at hd
  omega

/-- Witness for C5: with the defaults, a 429 with `Retry-After: 2` at
attempt 1 yields a recorded backoff of exactly `specBackoffDelay` = 2000 ms,
and that delay is at least 2000 ms. -/
theorem backoff_delay_formula_witness :
    (rateLimitedSalesDriveRequest defaultRetryConfig
      (fun _ => (Except.error ⟨some 429, none, some (.num 2)⟩ :
        Except SDError Unit)) 0 1).2.2.head? =
      some (specBackoffDelay defaultRetryConfig (some 2000) 1) ∧
    2000 ≤ specBackoffDelay defaultRetryConfig (some 2000) 1 := by
  have h := backoff_delay_formula defaultRetryConfig
    (fun _ => (Except.error ⟨some 429, none, some (.num 2)⟩ :
      Except SDError Unit)) 0 1 ⟨some 429, none, some (.num 2)⟩
    rfl (by decide) (by decide)
  refine ⟨?_, by decide⟩
  have hparse : parseRetryAfter 0 (some (.num 2)) = some 2000 := by decide
  simpa [hparse] using h.1

/-! ## Report-job cache
(src/services/reportDataService.js, lines 268-374)

A `Job` is a mutable record; its async IIFE runs `workFactory(job)` once
and settles the job.  Mutation is modelled by state passing; the `reportJobs`
`Map` is an association list; `Date.now()` is the explicit `now`.  The
builder (`workFactory`) result is abstracted as an `Except ε α`; the job's
settlement (the tail of the IIFE after `await workFactory(job)`) is
`settleReportJob`. -/

def REPORT_JOB_TTL_MS : Int := 5 * 60 * 1000

def REPORT_JOB_ERROR_TTL_MS : Int := 30 * 1000

inductive JobStatus where
  | pending
  | ready
  | error
deriving DecidableEq, Repr

/-- A value stored in the duck-typed `job.progress` merge target: a JS
number, string or null. -/
inductive ProgressValue where
  | num (n : Int)
  | str (s : String)
  | null
deriving DecidableEq, Repr

/-- The job record created by `createReportJob` (lines 301-311), with
results of type `α` and builder errors of type `ε`.  The `promise` field is
not stored: its eventual value is the second component returned by
`settleReportJob`.  `cleanupTimer` records the TTL of the armed eviction
timer, `none` when no timer is armed. -/
structure ReportJob (α ε : Type) where
  status : JobStatus
  createdAt : Int
  updatedAt : Int
  progress : List (String × ProgressValue)
  waitMs : Option Int
  result : Option α
  error : Option ε
  cleanupTimer : Option Int
deriving DecidableEq, Repr

/-- JS `job.updateProgress(patch)` (lines 313-322): merges `patch` into
`job.progress` (spread semantics: a patched key wins), updates `job.waitMs`
when the patch carries a finite numeric `waitMs` (clamped at 0), and stamps
`updatedAt`. -/
def updateProgress (now : Int) (patch : List (String × ProgressValue))
    (job : ReportJob α ε) : ReportJob α ε :=
  let progress := job.progress.filter (fun kv => (patch.lookup kv.1).isNone) ++ patch
  let waitMs := match patch.lookup "waitMs" with
    | some (.num n) => some (max 0 n)
    | _ => job.waitMs
  { job with progress := progress, waitMs := waitMs, updatedAt := now }

/-- JS `Math.ceil(a / b)` on integers, for a positive divisor. -/
def jsCeilDiv (a b : Int) : Int := -((-a) / b)

/-- JS `reportJobPushProgress(job, patch)` (lines 237-258): appends the
current hourly and daily quota statistics to the patch and applies
`job.updateProgress`. -/
def reportJobPushProgress (now : Int) (hw dw : QuotaWindow)
    (patch : List (String × ProgressValue)) (job : ReportJob α ε) :
    ReportJob α ε :=
  let hs := (getHourlyStats now hw).2
  let ds := (getDailyStats now dw).2
  updateProgress now (patch ++
    [("hourlyLimit", .num hs.limit), ("hourlyUsed", .num hs.used),
     ("hourlyRemaining", .num hs.remaining), ("hourlyResetMs", .num hs.resetInMs),
     ("hourlyResetSeconds", .num (jsCeilDiv hs.resetInMs 1000)),
     ("hourlyResetAt", .num hs.resetAt),
     ("dailyLimit", .num ds.limit), ("dailyUsed", .num ds.used),
     ("dailyRemaining", .num ds.remaining), ("dailyResetMs", .num ds.resetInMs),
     ("dailyResetSeconds", .num (jsCeilDiv ds.resetInMs 1000)),
     ("dailyResetAt", .num ds.resetAt)]) job

/-- The fresh job record built by `createReportJob` before its IIFE settles
(lines 301-311). -/
def createReportJob (now : Int) : ReportJob α ε :=
  { status := .pending, createdAt := now, updatedAt := now, progress := [],
    waitMs := none, result := none, error := none, cleanupTimer := none }

/-- The tail of the job's async IIFE (lines 324-348), applied once the
builder `workFactory(job)` settles with `outcome`.  `message` extracts
`err?.message || <fallback>`.  Returns the updated job and the value the
job's internal promise settles with: the try/catch means the promise always
resolves — with the result on success and with `null` (modelled `none`)
when the builder threw. -/
def settleReportJob (message : ε → String) (outcome : Except ε α) (now : Int)
    (hw dw : QuotaWindow) (job : ReportJob α ε) :
    ReportJob α ε × Except ε (Option α) :=
  match outcome with
  | .ok result =>
    let job := { job with
      result := some result, status := JobStatus.ready, waitMs := some 0 }
    let job := reportJobPushProgress now hw dw
      [("waitMs", .num 0), ("queueAhead", .num 0),
       ("message", .str "Звіт сформовано")] job
    let job := { job with cleanupTimer := some REPORT_JOB_TTL_MS }
    (job, .ok (some result))
  | .error err =>
    let job := { job with error := some err, status := JobStatus.error }
    let job := reportJobPushProgress now hw dw
      [("message", .str (message err)), ("waitMs", .null)] job
    let job := { job with cleanupTimer := some REPORT_JOB_ERROR_TTL_MS }
    (job, .ok none)

/-- The module-level `reportJobs` `Map`, as an association list. -/
def ReportJobs (α ε : Type) : Type := List (String × ReportJob α ε)

/-- JS `reportJobs.delete(key)`. -/
def jobsErase (cache : ReportJobs α ε) (key : String) : ReportJobs α ε :=
  cache.filter (fun kv => kv.1 ≠ key)

/-- JS `reportJobs.set(key, job)`. -/
def jobsSet (cache : ReportJobs α ε) (key : String) (job : ReportJob α ε) :
    ReportJobs α ε :=
  (key, job) :: jobsErase cache key

/-- JS `reportJobs.get(key)`. -/
def jobsGet (cache : ReportJobs α ε) (key : String) : Option (ReportJob α ε) :=
  List.lookup key cache

/-- The staleness test of `getOrCreateReportJob` (lines 356-358): a `ready`
entry older than `REPORT_JOB_TTL_MS`, or an `error` entry older than
`REPORT_JOB_ERROR_TTL_MS`, must be refreshed.  A `pending` entry is never
refreshed. -/
def shouldRefreshReportJob (now : Int) (job : ReportJob α ε) : Bool :=
  (job.status == JobStatus.ready &&
    decide (REPORT_JOB_TTL_MS < now - job.updatedAt)) ||
  (job.status == JobStatus.error &&
    decide (REPORT_JOB_ERROR_TTL_MS < now - job.updatedAt))

/-- JS `getOrCreateReportJob(key, workFactory)` (lines 353-374).  The
returned `Bool` is `true` exactly when a fresh job was created — the one
point where `workFactory` is invoked (once, by the new job's IIFE).  On a
stale hit the old entry's cleanup timer is cleared and the entry deleted
before the fresh job is stored. -/
def getOrCreateReportJob (now : Int) (cache : ReportJobs α ε) (key : String) :
    ReportJobs α ε × ReportJob α ε × Bool :=
  match jobsGet cache key with
  | some job =>
    if shouldRefreshReportJob now job then
      let fresh : ReportJob α ε := createReportJob now
      (jobsSet (jobsErase cache key) key fresh, fresh, true)
    else (cache, job, false)
  | none =>
    let fresh : ReportJob α ε := createReportJob now
    (jobsSet cache key fresh, fresh, true)

/-- The IIFE's settlement applied to the cache entry it captured: only the
job stored under `key` is touched. -/
def settleReportJobInCache (message : ε → String) (key : String)
    (outcome : Except ε α) (now : Int) (hw dw : QuotaWindow)
    (cache : ReportJobs α ε) : ReportJobs α ε :=
  cache.map (fun kv =>
    if kv.1 = key then (kv.1, (settleReportJob message outcome now hw dw kv.2).1)
    else kv)

lemma jobsGet_jobsSet_self (cache : ReportJobs α ε) (key : String)
    (job : ReportJob α ε) : jobsGet (jobsSet cache key job) key = some job := by
  simp [jobsGet, jobsSet, List.lookup]

/-- C2.  Single-flight: a `getOrCreateReportJob` call that finds a
non-stale entry returns that entry unchanged, leaves the cache untouched
and does not invoke the builder; on a miss, a fresh pending job is created
(the unique point where the builder `workFactory` runs, once), and any
second call with the same key then returns the very same job without
creating another, so two callers presenting the same key receive the same
job object and the same eventual result from one builder execution. -/
theorem getOrCreateReportJob_single_flight {α ε : Type} (now now2 : Int)
    (cache : ReportJobs α ε) (key : String) :
    (∀ job, jobsGet cache key = some job →
      shouldRefreshReportJob now job = false →
      getOrCreateReportJob now cache key = (cache, job, false)) ∧
    (jobsGet cache key = none →
      getOrCreateReportJob now cache key =
        (jobsSet cache key (createReportJob now), createReportJob now, true) ∧
      getOrCreateReportJob now2 (jobsSet cache key (createReportJob now)) key =
        (jobsSet cache key (createReportJob now), createReportJob now, false)) := by
  constructor
  · intro job hget hfresh
    simp [getOrCreateReportJob, hget, hfresh]
  · intro hmiss
    refine ⟨by simp [getOrCreateReportJob, hmiss], ?_⟩
    have hself := jobsGet_jobsSet_self cache key (createReportJob now (α := α) (ε := ε))
    have hpending : shouldRefreshReportJob now2
        (createReportJob now (α := α) (ε := ε)) = false := by
      simp [shouldRefreshReportJob, createReportJob]
    simp [getOrCreateReportJob, hself, hpending]

/-- Witness for C2: on the empty cache, a first call creates a pending job
and reports a builder invocation; a second call 10 minutes later returns
the same job object with no second invocation. -/
theorem getOrCreateReportJob_single_flight_witness :
    getOrCreateReportJob 0 ([] : ReportJobs Nat String) "k" =
      (jobsSet ([] : ReportJobs Nat String) "k" (createReportJob 0),
        createReportJob 0, true) ∧
    getOrCreateReportJob 600000
      (jobsSet ([] : ReportJobs Nat String) "k" (createReportJob 0)) "k" =
      (jobsSet ([] : ReportJobs Nat String) "k" (createReportJob 0),
        createReportJob 0, false) :=
  (getOrCreateReportJob_single_flight 0 600000 ([] : ReportJobs Nat String)
    "k").2 rfl

lemma settleReportJobInCache_lookup_other (message : ε → String)
    (key k2 : String) (outcome : Except ε α) (now : Int) (hw dw : QuotaWindow)
    (cache : ReportJobs α ε) (hne : k2 ≠ key) :
    jobsGet (settleReportJobInCache message key outcome now hw dw cache) k2 =
      jobsGet cache k2 := by
  have hbeqkey : (k2 == key) = false := by simp [hne]
  induction cache with
  | nil => rfl
  | cons kv rest ih =>
    obtain ⟨k1, j1⟩ := kv
    simp only [settleReportJobInCache, jobsGet, List.map_cons] at ih ⊢
    by_cases h : k1 = key
    · subst h
      rw [if_pos rfl, List.lookup_cons, List.lookup_cons]
      simp only [hbeqkey]
      exact ih
    · rw [if_neg (by simpa using h), List.lookup_cons, List.lookup_cons]
      cases hbeq : k2 == k1
      · exact ih
      · rfl

/-- C10.  Builder-error containment: when the builder settles, the job makes
exactly one transition out of `pending` — to `error` with the exception
captured in `job.error` when the builder threw (and the job's internal
promise then resolves to `null` rather than rejecting), to `ready` with the
result captured when it resolved; the catch-all means the promise never
rejects for any outcome; progress updates never change `status`, `result`
or `error` (so the settle transition is the only one); and settling the job
stored under one key leaves every other cache entry untouched. -/
theorem report_job_builder_error_containment {α ε : Type}
    (message : ε → String) (now now2 : Int) (hw dw : QuotaWindow)
    (job : ReportJob α ε) (outcome : Except ε α) (err : ε) (r : α)
    (key k2 : String) (cache : ReportJobs α ε)
    (patch : List (String × ProgressValue)) :
    (∃ v, (settleReportJob message outcome now hw dw job).2 = .ok v) ∧
    (job.status = .pending →
      (settleReportJob message (.error err) now hw dw job).1.status = .error ∧
      (settleReportJob message (.error err) now hw dw job).1.error = some err ∧
      (settleReportJob message (.error err) now hw dw job).2 = .ok none) ∧
    (job.status = .pending →
      (settleReportJob message (.ok r) now hw dw job).1.status = .ready ∧
      (settleReportJob message (.ok r) now hw dw job).1.result = some r ∧
      (settleReportJob message (.ok r) now hw dw job).2 = .ok (some r)) ∧
    ((updateProgress now2 patch job).status = job.status ∧
      (updateProgress now2 patch job).result = job.result ∧
      (updateProgress now2 patch job).error = job.error) ∧
    (k2 ≠ key →
      jobsGet (settleReportJobInCache message key outcome now hw dw cache) k2 =
        jobsGet cache k2) := by
  refine ⟨?_, fun _ => ?_, fun _ => ?_, ?_, fun hne => ?_⟩
  · cases outcome with
    | ok r => exact ⟨some r, rfl⟩
    | error e => exact ⟨none, rfl⟩
  · refine ⟨?_, ?_, rfl⟩ <;>
      simp [settleReportJob, reportJobPushProgress, updateProgress]
  · refine ⟨?_, ?_, rfl⟩ <;>
      simp [settleReportJob, reportJobPushProgress, updateProgress]
  · exact ⟨rfl, rfl, rfl⟩
  · exact settleReportJobInCache_lookup_other message key k2 outcome now hw dw
      cache hne

/-- Witness for C10: a concrete pending job whose builder throws the string
"boom" ends in status `error` with the exception captured, its promise
resolving to `null`, while an unrelated cache key is unaffected. -/
theorem report_job_builder_error_containment_witness :
    ((settleReportJob (fun e => e) (Except.error "boom") 7 ⟨0, 0⟩ ⟨0, 0⟩
        (createReportJob 0 (α := Nat))).1.status = .error ∧
      (settleReportJob (fun e => e) (Except.error "boom") 7 ⟨0, 0⟩ ⟨0, 0⟩
        (createReportJob 0 (α := Nat))).1.error = some "boom" ∧
      (settleReportJob (fun e => e) (Except.error "boom") 7 ⟨0, 0⟩ ⟨0, 0⟩
        (createReportJob 0 (α := Nat))).2 = .ok none) ∧
    jobsGet (settleReportJobInCache (fun e => e) "k" (Except.error "boom") 7
        ⟨0, 0⟩ ⟨0, 0⟩ ([("other", createReportJob 0)] : ReportJobs Nat String))
      "other" =
      jobsGet ([("other", createReportJob 0)] : ReportJobs Nat String) "other" := by
  have h := report_job_builder_error_containment (fun e : String => e) 7 0
    ⟨0, 0⟩ ⟨0, 0⟩ (createReportJob 0 (α := Nat)) (Except.error "boom") "boom"
    0 "k" "other" ([("other", createReportJob 0)] : ReportJobs Nat String) []
  exact ⟨h.2.1 rfl, h.2.2.2.2 (by decide)⟩

/-! ## RateLimiter (src/utils/rateLimiter.js)

The `RateLimiter` class holds mutable fields `queue`, `requestTimestamps`,
`timer`, `_isCoolingDown`, `lastDelayMs`, `_cooldownTriggered` plus the
configuration.  The fields become a state record; `Date.now()` becomes the
explicit `now`; `setTimeout` becomes the `timerFire` event of a trace; a
task's completion (the `.finally` re-flush) becomes the `taskComplete`
event.  Dispatching a task is observable as the timestamp pushed onto
`requestTimestamps`; `runRL` collects those dispatch times. -/

structure RateLimiterState where
  maxRequests : Int
  intervalMs : Int
  queueLimit : Option Int
  queue : List Nat
  requestTimestamps : List Int
  timerArmed : Bool
  isCoolingDown : Bool
  lastDelayMs : Int
  cooldownTriggered : Bool
deriving DecidableEq, Repr

/-- JS `ensurePositiveInteger(value, fallback)`: a finite positive parse
keeps the value, anything else falls back. -/
def ensurePositiveInteger (value fallback : Int) : Int :=
  if 0 < value then value else fallback

/-- JS `ensurePositiveNumber(value, fallback)` (floats modelled as Int ms). -/
def ensurePositiveNumber (value fallback : Int) : Int :=
  if 0 < value then value else fallback

/-- The `RateLimiter` constructor (lines 33-58).  `queueLimit = none` models
the `DEFAULT_QUEUE_LIMIT = Infinity` default; a provided limit is kept only
when positive. -/
def mkRateLimiter (maxRequests intervalMs : Int) (queueLimit : Option Int) :
    RateLimiterState :=
  { maxRequests := ensurePositiveInteger maxRequests 1
    intervalMs := ensurePositiveNumber intervalMs 1000
    queueLimit := match queueLimit with
      | none => none
      | some q => if 0 < q then some q else none
    queue := []
    requestTimestamps := []
    timerArmed := false
    isCoolingDown := false
    lastDelayMs := 0
    cooldownTriggered := false }

/-- JS `_pruneOld(now)` (lines 83-85): keep the timestamps with
`now - timestamp < intervalMs`. -/
def pruneOld (intervalMs now : Int) (ts : List Int) : List Int :=
  ts.filter (fun timestamp => decide (now - timestamp < intervalMs))

/-- JS `_flushQueue()` (lines 109-157) at time `now`.  Returns the new
state and the dispatch time when a queued task was started.  The
`waitTime === 0` branch shifts the oldest timestamp and re-enters
`_flushQueue`; the recursion is on the shrinking timestamp list.  The
at-capacity case with an empty timestamp list (only reachable when
`maxRequests ≤ 0`, which the constructor rules out) is a no-op here where
the JS would compute a NaN wait. -/
def flushQueue (now : Int) (s : RateLimiterState) :
    RateLimiterState × Option Int :=
  let ts := pruneOld s.intervalMs now s.requestTimestamps
  if s.queue.isEmpty then ({ s with requestTimestamps := ts }, none)
  else if s.maxRequests ≤ (ts.length : Int) then
    match hm : ts with
    | [] => ({ s with requestTimestamps := ts }, none)
    | oldest :: rest =>
      let waitTime := max (s.intervalMs - (now - oldest)) 0
      if waitTime = 0 then
        flushQueue now { s with requestTimestamps := rest }
      else if s.timerArmed then ({ s with requestTimestamps := ts }, none)
      else
        ({ s with
            requestTimestamps := ts, timerArmed := true, isCoolingDown := true,
            cooldownTriggered := true, lastDelayMs := waitTime }, none)
  else
    match s.queue with
    | [] => ({ s with requestTimestamps := ts }, none)
    | _task :: qrest =>
      ({ s with queue := qrest, requestTimestamps := ts ++ [now] }, some now)
  termination_by s.requestTimestamps.length
  decreasing_by
    have hlen : ts.length ≤ s.requestTimestamps.length := List.length_filter_le _ _
    rw [hm] at hlen
    simp at hlen ⊢
    omega

/-- An event acting on the limiter: a `schedule(task)` call, the completion
of a dispatched task (whose `.finally` re-flushes), or the armed cooldown
timer firing.  Each carries its `Date.now()`. -/
inductive RLEvent where
  | schedule (now : Int) (task : Nat)
  | taskComplete (now : Int)
  | timerFire (now : Int)
deriving DecidableEq, Repr

def RLEvent.time : RLEvent → Int
  | .schedule now _ => now
  | .taskComplete now => now
  | .timerFire now => now

/-- One event step.  `schedule` (lines 87-100) throws the queue-overflow
error when `pendingRequests >= queueLimit`, leaving the state untouched;
otherwise it enqueues and flushes.  The timer callback (lines 137-141)
clears the timer and cooldown flags and flushes. -/
def rlStep (e : RLEvent) (s : RateLimiterState) :
    RateLimiterState × Option Int :=
  match e with
  | .schedule now task =>
    if (match s.queueLimit with
        | some l => decide (l ≤ (s.queue.length : Int))
        | none => false) then (s, none)
    else flushQueue now { s with queue := s.queue ++ [task] }
  | .taskComplete now => flushQueue now s
  | .timerFire now =>
    if s.timerArmed then
      flushQueue now { s with timerArmed := false, isCoolingDown := false }
    else (s, none)

/-- Run a trace of events, collecting the dispatch times in order. -/
def runRL (events : List RLEvent) (s : RateLimiterState) :
    RateLimiterState × List Int :=
  match events with
  | [] => (s, [])
  | e :: rest =>
    let step := rlStep e s
    let next := runRL rest step.1
    (next.1, step.2.toList ++ next.2)

/-- The object literal returned by `estimateWait` (lines 195-207). -/
structure EstimateResult where
  waitMs : Int
  baseWaitMs : Int
  extraWaitBeforeMs : Int
  extraWaitAfterMs : Int
  queueAhead : Int
  active : Int
  intervalMs : Int
  maxRequests : Int
  extraRequests : Int
  remainingSlotsInWindow : Int
  coolingDown : Bool
deriving DecidableEq, Repr

/-- JS `Math.ceil(a / b)` for a positive divisor `b` (Lean's `Int./` is
floor division, so the ceiling is the negated floor of the negation). -/
def ceilDiv (a b : Int) : Int := -((-a) / b)

/-- JS `estimateWait(extraRequests)` (lines 159-208).  The method's first
action is `this._pruneOld(now)`, which reassigns `this.requestTimestamps`:
the returned state carries that mutation.  `Math.floor(queueAhead /
maxRequests)` is integer floor division of non-negative operands. -/
def estimateWait (now : Int) (extraRequests : Int) (s : RateLimiterState) :
    RateLimiterState × EstimateResult :=
  let pruned := pruneOld s.intervalMs now s.requestTimestamps
  let s := { s with requestTimestamps := pruned }
  let maxRequests := max s.maxRequests 1
  let intervalMs := s.intervalMs
  let queueAhead : Int := s.queue.length
  let active : Int := pruned.length
  let baseWait0 : Int :=
    match pruned with
    | [] => 0
    | oldest :: _ =>
      if maxRequests ≤ active then max (intervalMs - (now - oldest)) 0 else 0
  let baseWaitMs :=
    if s.isCoolingDown ∧ baseWait0 < s.lastDelayMs then s.lastDelayMs
    else baseWait0
  let extraWaitBeforeMs := (queueAhead / maxRequests) * intervalMs
  let tasksAheadInWindow := queueAhead % maxRequests
  let slotsUsedWithCurrent := tasksAheadInWindow + 1
  let remainingSlotsInWindow := max (maxRequests - slotsUsedWithCurrent) 0
  let extraRequestsAfterCurrent := max extraRequests 0
  let remainingExtraAfterCurrent :=
    max (extraRequestsAfterCurrent - remainingSlotsInWindow) 0
  let extraWaitAfterMs :=
    if 0 < remainingExtraAfterCurrent then
      ceilDiv remainingExtraAfterCurrent maxRequests * intervalMs
    else 0
  let waitMs := max 0 (baseWaitMs + extraWaitBeforeMs + extraWaitAfterMs)
  (s,
   { waitMs := waitMs, baseWaitMs := baseWaitMs,
     extraWaitBeforeMs := extraWaitBeforeMs,
     extraWaitAfterMs := extraWaitAfterMs, queueAhead := queueAhead,
     active := active, intervalMs := intervalMs, maxRequests := maxRequests,
     extraRequests := extraRequestsAfterCurrent,
     remainingSlotsInWindow := remainingSlotsInWindow,
     coolingDown := s.isCoolingDown })

/-- C4, counterexample.  `estimateWait` is not pure: its first action,
`this._pruneOld(now)`, drops timestamps older than `intervalMs` from
`this.requestTimestamps`.  On a limiter with `intervalMs = 5` holding the
stale timestamp 0, a call at `now = 10` empties the timestamp list. -/
theorem estimateWait_purity_counterexample :
    (estimateWait 10 0
      { maxRequests := 1, intervalMs := 5, queueLimit := none, queue := [],
        requestTimestamps := [0], timerArmed := false, isCoolingDown := false,
        lastDelayMs := 0, cooldownTriggered := false }).1 ≠
      { maxRequests := 1, intervalMs := 5, queueLimit := none, queue := [],
        requestTimestamps := [0], timerArmed := false, isCoolingDown := false,
        lastDelayMs := 0, cooldownTriggered := false } := by
  decide

/-- C4, amended.  `estimateWait(extra)` mutates the scheduler state only by
pruning `requestTimestamps` of entries older than `intervalMs` (exactly
`_pruneOld`); the queue, the armed timer, the cooldown flags and
`lastDelayMs` are untouched, and when no recorded timestamp is stale the
state is exactly as it was before the call. -/
theorem estimateWait_state_effect (now extra : Int) (s : RateLimiterState) :
    (estimateWait now extra s).1 =
      { s with requestTimestamps := pruneOld s.intervalMs now s.requestTimestamps } ∧
    ((∀ t ∈ s.requestTimestamps, now - t < s.intervalMs) →
      (estimateWait now extra s).1 = s) := by
  refine ⟨rfl, fun hfresh => ?_⟩
  have hprune : pruneOld s.intervalMs now s.requestTimestamps =
      s.requestTimestamps := by
    apply List.filter_eq_self.mpr
    intro t ht
    exact decide_eq_true (hfresh t ht)
  show { s with requestTimestamps := pruneOld s.intervalMs now s.requestTimestamps } = s
  rw [hprune]

/-- Witness for C4 (amended): on a limiter whose single timestamp 8 is
still inside the 5 ms window at `now = 10`, `estimateWait` leaves the state
exactly unchanged. -/
theorem estimateWait_state_effect_witness :
    (estimateWait 10 3
      { maxRequests := 1, intervalMs := 5, queueLimit := none, queue := [],
        requestTimestamps := [8], timerArmed := false, isCoolingDown := false,
        lastDelayMs := 0, cooldownTriggered := false }).1 =
      { maxRequests := 1, intervalMs := 5, queueLimit := none, queue := [],
        requestTimestamps := [8], timerArmed := false, isCoolingDown := false,
        lastDelayMs := 0, cooldownTriggered := false } :=
  (estimateWait_state_effect 10 3 _).2 (by decide)

lemma ceilDiv_le_ceilDiv {a1 a2 b : Int} (hb : 0 < b) (h : a1 ≤ a2) :
    ceilDiv a1 b ≤ ceilDiv a2 b := by
  unfold ceilDiv
  have := Int.ediv_le_ediv hb (neg_le_neg h)
  omega

lemma ceilDiv_nonneg {a b : Int} (ha : 0 ≤ a) (hb : 0 < b) :
    0 ≤ ceilDiv a b := by
  unfold ceilDiv
  have h0 : (-a) ≤ 0 := by omega
  have := Int.ediv_le_ediv hb h0
  simp at this
  omega

/-- C9.  For a fixed scheduler state, `estimateWait(extra).waitMs` is
monotonically non-decreasing in `extra`; and when `extra = 0` and the
current window has free capacity (fewer than `maxRequests` recorded
timestamps after pruning) the extra-related additional delay component
`extraWaitAfterMs` is 0. -/
theorem estimateWait_monotone_in_extra (now : Int) (s : RateLimiterState)
    (hI : 0 ≤ s.intervalMs) (e1 e2 : Int) (he : e1 ≤ e2) :
    (estimateWait now e1 s).2.waitMs ≤ (estimateWait now e2 s).2.waitMs ∧
    (((pruneOld s.intervalMs now s.requestTimestamps).length : Int) <
        s.maxRequests →
      (estimateWait now 0 s).2.extraWaitAfterMs = 0) := by
  constructor
  · simp only [estimateWait]
    apply max_le_max le_rfl
    apply add_le_add_left
    have hm : (0:Int) < max s.maxRequests 1 :=
      lt_of_lt_of_le zero_lt_one (le_max_right _ _)
    have hr : max (max e1 0 - max (max s.maxRequests 1 -
          ((s.queue.length : Int) % max s.maxRequests 1 + 1)) 0) 0 ≤
        max (max e2 0 - max (max s.maxRequests 1 -
          ((s.queue.length : Int) % max s.maxRequests 1 + 1)) 0) 0 :=
      max_le_max (sub_le_sub_right (max_le_max he le_rfl) _) le_rfl
    by_cases h1 : (0:Int) < max (max e1 0 - max (max s.maxRequests 1 -
        ((s.queue.length : Int) % max s.maxRequests 1 + 1)) 0) 0
    · rw [if_pos h1, if_pos (lt_of_lt_of_le h1 hr)]
      exact mul_le_mul_of_nonneg_right (ceilDiv_le_ceilDiv hm hr) hI
    · rw [if_neg h1]
      by_cases h2 : (0:Int) < max (max e2 0 - max (max s.maxRequests 1 -
          ((s.queue.length : Int) % max s.maxRequests 1 + 1)) 0) 0
      · rw [if_pos h2]
        exact mul_nonneg (ceilDiv_nonneg (le_max_right _ _) hm) hI
      · rw [if_neg h2]
  · intro _
    simp only [estimateWait]
    rw [if_neg]
    intro hlt
    have hslots : (0:Int) ≤ max (max s.maxRequests 1 -
        ((s.queue.length : Int) % max s.maxRequests 1 + 1)) 0 :=
      le_max_right _ _
    have hzero : max ((0:Int) ⊔ 0 - max (max s.maxRequests 1 -
        ((s.queue.length : Int) % max s.maxRequests 1 + 1)) 0) 0 = 0 :=
      max_eq_right (by simpa using hslots)
    rw [hzero] at hlt
    exact lt_irrefl 0 hlt

/-- Witness for C9: on a limiter with interval 5 ms, one queued task and
one active timestamp, the estimated wait for `extra = 1` is at most the
estimate for `extra = 5`, and with free capacity `extra = 0` contributes no
additional delay. -/
theorem estimateWait_monotone_in_extra_witness :
    ((estimateWait 10 1
      { maxRequests := 2, intervalMs := 5, queueLimit := none, queue := [7],
        requestTimestamps := [8], timerArmed := false, isCoolingDown := false,
        lastDelayMs := 0, cooldownTriggered := false }).2.waitMs ≤
    (estimateWait 10 5
      { maxRequests := 2, intervalMs := 5, queueLimit := none, queue := [7],
        requestTimestamps := [8], timerArmed := false, isCoolingDown := false,
        lastDelayMs := 0, cooldownTriggered := false }).2.waitMs) ∧
    (estimateWait 10 0
      { maxRequests := 2, intervalMs := 5, queueLimit := none, queue := [7],
        requestTimestamps := [8], timerArmed := false, isCoolingDown := false,
        lastDelayMs := 0, cooldownTriggered := false }).2.extraWaitAfterMs = 0 :=
  ⟨(estimateWait_monotone_in_extra 10 _ (by decide) 1 5 (by decide)).1,
   (estimateWait_monotone_in_extra 10 _ (by decide) 0 0 le_rfl).2 (by decide)⟩

/-! ### The sliding-window admission invariant

`requestTimestamps` only ever receives the current dispatch time at the
tail, and only loses entries that are at least `intervalMs` old (both
`_pruneOld` and the `waitTime === 0` shift remove such entries).  The
invariant below captures this: the timestamp list is a suffix of the
dispatch history, every dropped dispatch being at least `intervalMs` old. -/

lemma length_filter_le_length_filter (p q : Int → Bool) :
    ∀ l : List Int, (∀ x ∈ l, p x = true → q x = true) →
    (l.filter p).length ≤ (l.filter q).length := by
  intro l
  induction l with
  | nil => simp
  | cons a t ih =>
    intro h
    by_cases hpa : p a = true
    · rw [List.filter_cons_of_pos hpa, List.filter_cons_of_pos (h a (by simp) hpa)]
      simpa using ih fun x hx => h x (by simp [hx])
    · rw [List.filter_cons_of_neg (by simpa using hpa)]
      refine le_trans (ih fun x hx => h x (by simp [hx])) ?_
      cases hqa : q a
      · rw [List.filter_cons_of_neg (by simp [hqa])]
      · rw [List.filter_cons_of_pos hqa]
        simp

lemma filter_sorted_eq_drop (p : Int → Bool)
    (hmono : ∀ x y : Int, x ≤ y → p x = true → p y = true) :
    ∀ l : List Int, List.Pairwise (fun a b : Int => a ≤ b) l →
    ∃ j, j ≤ l.length ∧ l.filter p = l.drop j ∧ ∀ x ∈ l.take j, p x = false := by
  intro l
  induction l with
  | nil => exact fun _ => ⟨0, by simp, rfl, by simp⟩
  | cons a t ih =>
    intro hp
    rcases List.pairwise_cons.mp hp with ⟨hall, hpt⟩
    by_cases hpa : p a = true
    · refine ⟨0, by simp, ?_, by simp⟩
      rw [List.drop_zero, List.filter_cons_of_pos hpa]
      congr 1
      exact List.filter_eq_self.mpr fun x hx => hmono a x (hall x hx) hpa
    · obtain ⟨j, hjle, hfil, htake⟩ := ih hpt
      refine ⟨j + 1, by simpa using hjle, ?_, ?_⟩
      · rw [List.filter_cons_of_neg (by simpa using hpa), List.drop_succ_cons]
        exact hfil
      · intro x hx
        rw [List.take_succ_cons] at hx
        rcases List.mem_cons.mp hx with rfl | hx
        · simpa using hpa
        · exact htake x hx

/-- Reachability invariant tying a limiter state to its dispatch history
`Ds` (all dispatch times so far, in order) at a point where every event up
to time `T` has been processed. -/
structure RLInv (R I T : Int) (s : RateLimiterState) (Ds : List Int) : Prop where
  hmax : s.maxRequests = R
  hint : s.intervalMs = I
  hpair : List.Pairwise (fun a b : Int => a ≤ b) Ds
  hle : ∀ d ∈ Ds, d ≤ T
  hsuffix : ∃ k, k ≤ Ds.length ∧ s.requestTimestamps = Ds.drop k ∧
    ∀ d ∈ Ds.take k, d + I ≤ T

/-- Every dispatch in the history starts when fewer than `R` of the
earlier dispatches lie inside the trailing window of length `I`. -/
def dispatchBounded (R I : Int) (Ds : List Int) : Prop :=
  ∀ A d B, Ds = A ++ d :: B →
    ((A.filter (fun x => decide (d - x < I))).length : Int) < R

lemma RLInv.mono {R I T T' : Int} {s : RateLimiterState} {Ds : List Int}
    (h : RLInv R I T s Ds) (hT : T ≤ T') : RLInv R I T' s Ds := by
  obtain ⟨k, hk, hts, htake⟩ := h.hsuffix
  exact ⟨h.hmax, h.hint, h.hpair, fun d hd => (h.hle d hd).trans hT,
    ⟨k, hk, hts, fun d hd => (htake d hd).trans hT⟩⟩

lemma flushQueue_inv (R I T now : Int) (s : RateLimiterState) (Ds : List Int)
    (hinv : RLInv R I T s Ds) (hTnow : T ≤ now) :
    RLInv R I now (flushQueue now s).1 (Ds ++ ((flushQueue now s).2).toList) ∧
    ∀ t, (flushQueue now s).2 = some t → t = now ∧
      ((Ds.filter (fun x => decide (now - x < I))).length : Int) < R := by
  obtain ⟨k, hkle, hts, htake⟩ := hinv.hsuffix
  have hmono : ∀ x y : Int, x ≤ y → decide (now - x < I) = true →
      decide (now - y < I) = true := by
    intro x y hxy hx
    simp only [decide_eq_true_eq] at hx ⊢
    omega
  obtain ⟨j, hjle, hfil, htakej⟩ :=
    filter_sorted_eq_drop _ hmono (Ds.drop k)
      (hinv.hpair.sublist (List.drop_sublist _ _))
  have hprune : pruneOld s.intervalMs now s.requestTimestamps =
      Ds.drop (k + j) := by
    rw [pruneOld, hts, hinv.hint, hfil, List.drop_drop, Nat.add_comm]
  have hklen : k + j ≤ Ds.length := by
    have := List.length_drop k Ds
    omega
  have htakeAll : ∀ d ∈ Ds.take (k + j), d + I ≤ now := by
    intro d hd
    rw [List.take_add] at hd
    rcases List.mem_append.mp hd with hd | hd
    · exact (htake d hd).trans hTnow
    · have := htakej d hd
      simp only [decide_eq_false_iff_not, not_lt] at this
      omega
  have hmem : ∀ x ∈ pruneOld s.intervalMs now s.requestTimestamps,
      decide (now - x < I) = true := by
    intro x hx
    have := List.of_mem_filter hx
    rw [hinv.hint] at this
    exact this
  have hinvNone : ∀ s' : RateLimiterState, s'.maxRequests = R →
      s'.intervalMs = I → s'.requestTimestamps = Ds.drop (k + j) →
      RLInv R I now s' Ds := by
    intro s' h1 h2 h3
    exact ⟨h1, h2, hinv.hpair, fun d hd => (hinv.hle d hd).trans hTnow,
      ⟨k + j, hklen, h3, htakeAll⟩⟩
  have hfilterDs : Ds.filter (fun x => decide (now - x < I)) =
      pruneOld s.intervalMs now s.requestTimestamps := by
    rw [hprune]
    conv_lhs => rw [← List.take_append_drop (k + j) Ds]
    rw [List.filter_append]
    have h1 : (Ds.take (k + j)).filter (fun x => decide (now - x < I)) = [] := by
      rw [List.filter_eq_nil_iff]
      intro a ha
      have := htakeAll a ha
      simp only [decide_eq_true_eq]
      omega
    have h2 : (Ds.drop (k + j)).filter (fun x => decide (now - x < I)) =
        Ds.drop (k + j) := by
      apply List.filter_eq_self.mpr
      intro a ha
      rw [← hprune] at ha
      exact hmem a ha
    rw [h1, h2, List.nil_append]
  rw [flushQueue]
  dsimp only
  split
  · -- the queue is empty: prune only
    refine ⟨?_, fun t ht => by simp at ht⟩
    simp only [Option.toList_none, List.append_nil]
    exact hinvNone _ hinv.hmax hinv.hint hprune
  · split
    · -- at capacity
      split
      · -- pruned list empty (maxRequests ≤ 0 only)
        refine ⟨?_, fun t ht => by simp at ht⟩
        simp only [Option.toList_none, List.append_nil]
        exact hinvNone _ hinv.hmax hinv.hint hprune
      · rename_i oldest rest hm
        split
        · -- `waitTime === 0`: impossible, a pruned timestamp is < I old
          rename_i hwait
          exfalso
          have holdest : oldest ∈ pruneOld s.intervalMs now s.requestTimestamps := by
            rw [hm]
            exact List.mem_cons_self _ _
          have hp := hmem oldest holdest
          simp only [decide_eq_true_eq] at hp
          rw [hinv.hint] at hwait
          have : (0:Int) < I - (now - oldest) := by omega
          have hmax0 : (0:Int) < max (I - (now - oldest)) 0 :=
            lt_max_of_lt_left this
          omega
        · split
          · -- timer already armed
            refine ⟨?_, fun t ht => by simp at ht⟩
            simp only [Option.toList_none, List.append_nil]
            exact hinvNone _ hinv.hmax hinv.hint hprune
          · -- arm the cooldown timer
            refine ⟨?_, fun t ht => by simp at ht⟩
            simp only [Option.toList_none, List.append_nil]
            exact hinvNone _ hinv.hmax hinv.hint hprune
    · -- below capacity: dispatch the queue head
      rename_i hcap
      split
      · -- queue empty: contradicts the isEmpty check, same no-op shape
        refine ⟨?_, fun t ht => by simp at ht⟩
        simp only [Option.toList_none, List.append_nil]
        exact hinvNone _ hinv.hmax hinv.hint hprune
      · rename_i task qrest hq
        have hcount : ((Ds.filter (fun x => decide (now - x < I))).length : Int)
            < R := by
          rw [hfilterDs]
          rw [hinv.hmax] at hcap
          omega
        refine ⟨?_, fun t ht => ?_⟩
        · refine ⟨hinv.hmax, hinv.hint, ?_, ?_, ⟨k + j, ?_, ?_, ?_⟩⟩
          · simp only [Option.toList_some]
            rw [List.pairwise_append]
            refine ⟨hinv.hpair, by simp, ?_⟩
            intro d hd y hy
            simp only [List.mem_singleton] at hy
            subst hy
            exact (hinv.hle d hd).trans hTnow
          · intro d hd
            simp only [Option.toList_some] at hd
            rcases List.mem_append.mp hd with hd | hd
            · exact (hinv.hle d hd).trans hTnow
            · simp only [List.mem_singleton] at hd
              omega
          · simp only [Option.toList_some, List.length_append]
            omega
          · simp only [Option.toList_some]
            rw [List.drop_append_of_le_length hklen, ← hprune]
          · simp only [Option.toList_some]
            rw [List.take_append_of_le_length hklen]
            exact htakeAll
        · simp only [Option.some.injEq] at ht
          exact ⟨ht.symm, hcount⟩

lemma rlStep_inv (R I T : Int) (e : RLEvent) (s : RateLimiterState)
    (Ds : List Int) (hinv : RLInv R I T s Ds) (hTe : T ≤ e.time) :
    RLInv R I e.time (rlStep e s).1 (Ds ++ ((rlStep e s).2).toList) ∧
    ∀ t, (rlStep e s).2 = some t → t = e.time ∧
      ((Ds.filter (fun x => decide (e.time - x < I))).length : Int) < R := by
  cases e with
  | schedule now task =>
    simp only [rlStep, RLEvent.time] at hTe ⊢
    split
    · refine ⟨?_, fun t ht => by simp at ht⟩
      simp only [Option.toList_none, List.append_nil]
      exact hinv.mono hTe
    · have hinv' : RLInv R I T { s with queue := s.queue ++ [task] } Ds :=
        ⟨hinv.hmax, hinv.hint, hinv.hpair, hinv.hle, hinv.hsuffix⟩
      exact flushQueue_inv R I T now _ Ds hinv' hTe
  | taskComplete now =>
    exact flushQueue_inv R I T now s Ds hinv hTe
  | timerFire now =>
    simp only [rlStep, RLEvent.time] at hTe ⊢
    split
    · have hinv' : RLInv R I T
          { s with timerArmed := false, isCoolingDown := false } Ds :=
        ⟨hinv.hmax, hinv.hint, hinv.hpair, hinv.hle, hinv.hsuffix⟩
      exact flushQueue_inv R I T now _ Ds hinv' hTe
    · refine ⟨?_, fun t ht => by simp at ht⟩
      simp only [Option.toList_none, List.append_nil]
      exact hinv.mono hTe

lemma dispatchBounded_nil (R I : Int) : dispatchBounded R I [] := by
  intro A d B h
  exact absurd h (by simp)

lemma dispatchBounded_append (R I : Int) (Ds : List Int) (u : Int)
    (hB : dispatchBounded R I Ds)
    (hu : ((Ds.filter (fun x => decide (u - x < I))).length : Int) < R) :
    dispatchBounded R I (Ds ++ [u]) := by
  intro A d B heq
  rcases List.eq_nil_or_concat B with rfl | ⟨B0, b, rfl⟩
  · obtain ⟨hA, hd⟩ := List.append_inj' heq (by simp)
    obtain rfl : u = d := by simpa using hd
    subst hA
    exact hu
  · rw [List.concat_eq_append] at heq
    have h2 : (A ++ d :: B0) ++ [b] = Ds ++ [u] := by
      rw [List.append_assoc, List.cons_append]
      exact heq.symm
    obtain ⟨hDs, _⟩ := List.append_inj' h2 (by simp)
    exact hB A d B0 hDs.symm

lemma dispatchBounded_of_append (R I : Int) (Ds : List Int) (u : Int)
    (hB : dispatchBounded R I (Ds ++ [u])) : dispatchBounded R I Ds := by
  intro A d B heq
  exact hB A d (B ++ [u]) (by simp [heq])

lemma windowCount_le_of_dispatchBounded (R I : Int) (hR : 0 ≤ R) (lo : Int) :
    ∀ Ds : List Int, dispatchBounded R I Ds →
    ((Ds.filter (fun d => decide (lo ≤ d ∧ d < lo + I))).length : Int) ≤ R := by
  intro Ds
  induction Ds using List.reverseRecOn with
  | nil => intro _; simpa using hR
  | append_singleton Ds u ih =>
    intro hB
    have hBpre := dispatchBounded_of_append R I Ds u hB
    rw [List.filter_append]
    by_cases hpu : lo ≤ u ∧ u < lo + I
    · have hfu : List.filter (fun d => decide (lo ≤ d ∧ d < lo + I)) [u]
          = [u] := by simp [hpu]
      rw [hfu]
      have hmem : ∀ x ∈ Ds, decide (lo ≤ x ∧ x < lo + I) = true →
          decide (u - x < I) = true := by
        intro x _ hx
        simp only [decide_eq_true_eq] at hx ⊢
        omega
      have hlen : ((Ds.filter (fun d => decide (lo ≤ d ∧ d < lo + I))).length : Int)
          < R := by
        have h1 := length_filter_le_length_filter _ _ Ds hmem
        have h2 := hB Ds u [] (by simp)
        omega
      simp only [List.length_append, List.length_singleton]
      push_cast
      omega
    · have hfu : List.filter (fun d => decide (lo ≤ d ∧ d < lo + I)) [u]
          = [] := by simp [hpu]
      rw [hfu, List.append_nil]
      exact ih hBpre

lemma runRL_bounded (R I : Int) :
    ∀ (events : List RLEvent) (T : Int) (s : RateLimiterState) (Ds : List Int),
    RLInv R I T s Ds → dispatchBounded R I Ds →
    List.Pairwise (fun a b : RLEvent => a.time ≤ b.time) events →
    (∀ e ∈ events, T ≤ e.time) →
    dispatchBounded R I (Ds ++ (runRL events s).2) := by
  intro events
  induction events with
  | nil =>
    intro T s Ds hinv hB _ _
    simpa [runRL] using hB
  | cons e rest ih =>
    intro T s Ds hinv hB hpair hT
    rw [runRL]
    dsimp only
    obtain ⟨hinv1, hdisp⟩ := rlStep_inv R I T e s Ds hinv (hT e (by simp))
    have hB1 : dispatchBounded R I (Ds ++ ((rlStep e s).2).toList) := by
      cases hd : (rlStep e s).2 with
      | none => simpa [hd] using hB
      | some t =>
        obtain ⟨rfl, hcount⟩ := hdisp t hd
        simp only [Option.toList_some]
        exact dispatchBounded_append R I Ds _ hB hcount
    have hrest := ih e.time (rlStep e s).1 (Ds ++ ((rlStep e s).2).toList)
      hinv1 hB1 (List.pairwise_cons.mp hpair).2
      (fun e' he' => (List.pairwise_cons.mp hpair).1 e' he')
    simpa [List.append_assoc] using hrest

lemma flushQueue_dispatch_char (now t : Int) (s s' : RateLimiterState)
    (h : flushQueue now s = (s', some t)) :
    t = now ∧
    ((pruneOld s.intervalMs now s.requestTimestamps).length : Int) <
      s.maxRequests ∧
    s'.requestTimestamps =
      pruneOld s.intervalMs now s.requestTimestamps ++ [now] := by
  rw [flushQueue] at h
  dsimp only at h
  split at h
  · simp at h
  · split at h
    · split at h
      · simp at h
      · rename_i oldest rest hm
        split at h
        · rename_i hwait
          exfalso
          have holdest : oldest ∈
              pruneOld s.intervalMs now s.requestTimestamps := by
            rw [hm]
            exact List.mem_cons_self _ _
          have hp := List.of_mem_filter holdest
          simp only [decide_eq_true_eq] at hp
          have h0 : (0:Int) < max (s.intervalMs - (now - oldest)) 0 :=
            lt_max_of_lt_left (by omega)
          omega
        · split at h <;> simp at h
    · rename_i hcap
      split at h
      · simp at h
      · rename_i task qrest hq
        have h1 := congrArg Prod.fst h
        have h2 := congrArg Prod.snd h
        simp only [Option.some.injEq] at h2
        refine ⟨h2.symm, by omega, ?_⟩
        dsimp only at h1
        rw [← h1]

/-- C1.  Sliding-window admission invariant: starting from a freshly
constructed limiter, for every time-ordered sequence of `schedule` calls,
task completions and timer firings, at most `maxRequests` task executions
begin within any half-open window of length `intervalMs` (the window
semantics matching `_pruneOld`'s strict `now - timestamp < intervalMs`);
and `_flushQueue` dispatches a queued task only when, after pruning
recorded start timestamps older than `intervalMs`, fewer than `maxRequests`
timestamps remain, recording the dispatch time as a new timestamp. -/
theorem rateLimiter_sliding_window_admission (maxRequests intervalMs : Int)
    (queueLimit : Option Int) (events : List RLEvent)
    (hsorted : List.Pairwise (fun a b : RLEvent => a.time ≤ b.time) events) :
    (∀ lo : Int,
      ((((runRL events (mkRateLimiter maxRequests intervalMs queueLimit)).2).filter
          (fun d => decide (lo ≤ d ∧ d < lo +
            (mkRateLimiter maxRequests intervalMs queueLimit).intervalMs))).length : Int) ≤
        (mkRateLimiter maxRequests intervalMs queueLimit).maxRequests) ∧
    (∀ (now t : Int) (s s' : RateLimiterState),
      flushQueue now s = (s', some t) →
      t = now ∧
      ((pruneOld s.intervalMs now s.requestTimestamps).length : Int) <
        s.maxRequests ∧
      s'.requestTimestamps =
        pruneOld s.intervalMs now s.requestTimestamps ++ [now]) := by
  constructor
  · intro lo
    have hR : 1 ≤ (mkRateLimiter maxRequests intervalMs queueLimit).maxRequests := by
      simp only [mkRateLimiter, ensurePositiveInteger]
      split <;> omega
    cases events with
    | nil =>
      simp only [runRL, List.filter_nil, List.length_nil, Nat.cast_zero]
      omega
    | cons e rest =>
      apply windowCount_le_of_dispatchBounded _ _ (by omega) lo
      have hinv0 : RLInv (mkRateLimiter maxRequests intervalMs queueLimit).maxRequests
          (mkRateLimiter maxRequests intervalMs queueLimit).intervalMs e.time
          (mkRateLimiter maxRequests intervalMs queueLimit) [] :=
        ⟨rfl, rfl, List.Pairwise.nil, by simp, ⟨0, by simp, rfl, by simp⟩⟩
      have hT : ∀ e' ∈ e :: rest, e.time ≤ e'.time := by
        intro e' he'
        rcases List.mem_cons.mp he' with rfl | he'
        · exact le_refl _
        · exact (List.pairwise_cons.mp hsorted).1 e' he'
      have h := runRL_bounded (mkRateLimiter maxRequests intervalMs queueLimit).maxRequests
        (mkRateLimiter maxRequests intervalMs queueLimit).intervalMs (e :: rest)
        e.time (mkRateLimiter maxRequests intervalMs queueLimit) []
        hinv0 (dispatchBounded_nil _ _) hsorted hT
      simpa using h
  · exact fun now t s s' h => flushQueue_dispatch_char now t s s' h

/-- Witness for C1: two back-to-back `schedule` calls at time 0 on a
limiter with `maxRequests = 1`, `intervalMs = 1000` dispatch only one task
inside the window starting at 0; and a concrete `_flushQueue` dispatch at
time 0 records the timestamp 0 after pruning an empty list. -/
def flushWitBefore : RateLimiterState :=
  ⟨1, 1000, none, [5], [], false, false, 0, false⟩

def flushWitAfter : RateLimiterState :=
  ⟨1, 1000, none, [], [0], false, false, 0, false⟩

theorem rateLimiter_sliding_window_admission_witness :
    ((((runRL [RLEvent.schedule 0 101, RLEvent.schedule 0 102]
        (mkRateLimiter 1 1000 none)).2).filter
        (fun d => decide ((0:Int) ≤ d ∧ d < 0 +
          (mkRateLimiter 1 1000 none).intervalMs))).length : Int) ≤
      (mkRateLimiter 1 1000 none).maxRequests ∧
    ((0:Int) = 0 ∧
      ((pruneOld (1000:Int) 0 ([] : List Int)).length : Int) < 1 ∧
      ([0] : List Int) = pruneOld (1000:Int) 0 ([] : List Int) ++ [0]) := by
  have hflush : flushQueue 0 flushWitBefore = (flushWitAfter, some 0) := by
    rw [flushQueue]
    rfl
  refine ⟨(rateLimiter_sliding_window_admission 1 1000 none
    [RLEvent.schedule 0 101, RLEvent.schedule 0 102] ?_).1 0, ?_⟩
  · simp [List.pairwise_cons, RLEvent.time]
  · exact (rateLimiter_sliding_window_admission 1 1000 none [] (by simp)).2
      0 0 _ _ hflush

end GoogleAds
